import Mathlib

/-!
Verification of the mcsr-bot polling-and-reconciliation engine
(`src/index.js`) against its natural-language specification.

Shallow embedding conventions:
* JS numeric fields that pass through `Number(·)` are modelled as
  `Option Int`: `some t` means the coercion yields a finite integer `t`,
  `none` means it yields `NaN`/`±Infinity`/a non-numeric value.  All
  numeric payloads of this program (times in ms, elo, match ids) are
  integers, so restricting finite numbers to `Int` is faithful.
* JS string-or-nullish fields are `Option String`; JS truthiness of a
  string value ("non-null" in the spec) is `truthyStr`: present and
  non-empty.
* JS objects used as string-keyed maps (`state.pbByType[t]`,
  `state.lastMatchId`) are association lists preserving insertion order,
  which is what `Object.entries` iterates in for non-index keys.
* The two `setInterval` bodies are pure functions from the loaded state
  and an oracle of this tick's network results to (new state, event
  trace).  The trace records every `saveState` call and every
  `channel.send` call in program order; send events carry the arguments
  that determine the rendered message.
-/

/-- JS truthiness of an optional string: `null`/`undefined` and the empty
string are falsy, every other string is truthy. -/
def truthyStr : Option String → Bool
  | none => false
  | some s => s ≠ ""

/-- A participant entry of a match record (`m.players[i]`). -/
structure MPlayer where
  uuid : Option String
  nickname : Option String
  eloRate : Option Int
deriving Repr, DecidableEq

/-- An entry of a match's post-match rating-change list (`m.changes[i]`). -/
structure MChange where
  uuid : Option String
  eloRate : Option Int
deriving Repr, DecidableEq

/-- A match record as read by `src/index.js`: `id` is `m?.id` (a number,
`none` when nullish), `resultTime` is the value of `Number(m?.result?.time)`
(`none` when not finite), `resultUuid` is `m?.result?.uuid`, `forfeited`
is `!!m?.forfeited`, `mtype` is `m?.type`. -/
structure MatchRecord where
  id : Option Nat
  resultTime : Option Int
  resultUuid : Option String
  forfeited : Bool
  mtype : Option Nat
  players : List MPlayer
  changes : List MChange
deriving Repr, DecidableEq

/-- `isValidWinForPlayer` from `src/index.js` lines 85–96: the match must
carry a finite strictly-positive time, must not be forfeited, must carry a
truthy winner uuid and a truthy queried uuid, and the two uuids must be
strictly equal. -/
def isValidWinForPlayer (m : MatchRecord) (playerUuid : Option String) : Bool :=
  match m.resultTime with
  | none => false
  | some t =>
    if t ≤ 0 then false
    else if m.forfeited then false
    else if ¬ truthyStr m.resultUuid then false
    else if ¬ truthyStr playerUuid then false
    else m.resultUuid == playerUuid

/-- Claim C1: for every match record `m` and player identity `u`,
`isValidWinForPlayer m u` returns `true` iff `m` carries a finite,
strictly-positive completion time, `m` is not marked forfeited, `m`
carries a non-null winner identity (JS-truthy: present and non-empty, as
tested by the source's `!winnerUuid` guard), and that winner identity
equals `u` exactly; in every other case it returns `false`. -/
theorem C1_isValidWinForPlayer_iff (m : MatchRecord) (u : Option String) :
    isValidWinForPlayer m u = true ↔
      (∃ t : Int, m.resultTime = some t ∧ 0 < t) ∧
        m.forfeited = false ∧
        (∃ w : String, m.resultUuid = some w ∧ w ≠ "" ∧ u = some w) := by
  unfold isValidWinForPlayer
  rcases hm : m.resultTime with _ | t
  · simp [hm]
  · constructor
    · intro h
      by_cases h1 : t ≤ 0
      · simp [h1] at h
      · by_cases h2 : m.forfeited
        · simp [h1, h2] at h
        · by_cases h3 : truthyStr m.resultUuid
          · by_cases h4 : truthyStr u
            · simp [h1, h2, h3, h4] at h
              rcases hw : m.resultUuid with _ | w
              · rw [hw] at h3; simp [truthyStr] at h3
              · rw [hw] at h3 h
                simp [truthyStr] at h3
                refine ⟨⟨t, rfl, by omega⟩, by simp [h2], ⟨w, rfl, h3, ?_⟩⟩
                exact h.symm
            · simp [h1, h2, h3, h4] at h
          · simp [h1, h2, h3] at h
    · rintro ⟨⟨t', ht', hpos⟩, hff, ⟨w, hw, hne, hu⟩⟩
      obtain rfl : t = t' := by injection ht'
      have h1 : ¬ t ≤ 0 := by omega
      have h3 : truthyStr m.resultUuid = true := by simp [hw, truthyStr, hne]
      have h4 : truthyStr u = true := by simp [hu, truthyStr, hne]
      simp [h1, hff, h3, h4, hw, hu, hpos, hne, truthyStr]

/-- The validated completion time match `m` contributes for identity
`puid`: `some t` when `isValidWinForPlayer` accepts the match (and `t` is
its finite time), `none` otherwise. -/
def validTime (puid : Option String) (m : MatchRecord) : Option Int :=
  if isValidWinForPlayer m puid then m.resultTime else none

/-- The validated times of a match list, in list order. -/
def validTimes (puid : Option String) (ms : List MatchRecord) : List Int :=
  ms.filterMap (validTime puid)

lemma valid_time_pos {m : MatchRecord} {puid : Option String}
    (h : isValidWinForPlayer m puid = true) : ∃ t, m.resultTime = some t ∧ 0 < t := by
  unfold isValidWinForPlayer at h
  rcases hm : m.resultTime with _ | t
  · rw [hm] at h; simp at h
  · rw [hm] at h
    by_cases h1 : t ≤ 0
    · simp [h1] at h
    · exact ⟨t, rfl, by omega⟩

/-- `fetchRankedPB` from `src/index.js` lines 99–113: scan the
fastest-sorted page in order and return the time of the first match that
validates for `puid`; `null` when the page is empty or no match
validates.  `matches` is the page returned by the source and `puid` is
`uuidByName[player]`. -/
def fetchRankedPB (puid : Option String) : List MatchRecord → Option Int
  | [] => none
  | m :: rest => if isValidWinForPlayer m puid then m.resultTime else fetchRankedPB puid rest

lemma fetchRankedPB_eq_head (puid : Option String) (ms : List MatchRecord) :
    fetchRankedPB puid ms = (validTimes puid ms).head? := by
  induction ms with
  | nil => rfl
  | cons m rest ih =>
    by_cases h : isValidWinForPlayer m puid
    · obtain ⟨t, ht, _⟩ := valid_time_pos h
      simp [fetchRankedPB, validTimes, validTime, h, ht]
    · simp only [fetchRankedPB, validTimes, List.filterMap_cons, validTime, h]
      simpa [validTimes, validTime] using ih

lemma foldl_min_eq_self {a : Int} {l : List Int} (h : ∀ x ∈ l, a ≤ x) :
    l.foldl min a = a := by
  induction l generalizing a with
  | nil => rfl
  | cons b bs ih =>
    have hab : min a b = a := min_eq_left (h b (by simp))
    simp only [List.foldl, hab]
    exact ih (fun x hx => h x (by simp [hx]))

lemma head_eq_min_of_sorted {l : List Int} (h : List.Pairwise (· ≤ ·) l) :
    l.head? = l.min? := by
  cases l with
  | nil => rfl
  | cons a as =>
    rw [List.pairwise_cons] at h
    show some a = (a :: as).min?
    have hdef : (a :: as).min? = some (as.foldl min a) := rfl
    rw [hdef, foldl_min_eq_self h.1]

/-- Claim C8: for every page of matches, `fetchRankedPB` returns the
completion time of the first match in page order satisfying the validator
(`none` if none does), and when the page is sorted fastest-first (the
validated times appear in ascending order) this equals the minimum
validated time over the whole page. -/
theorem C8_fetchRankedPB_first_and_min (puid : Option String) (page : List MatchRecord)
    (hs : List.Pairwise (· ≤ ·) (validTimes puid page)) :
    fetchRankedPB puid page = (validTimes puid page).head? ∧
      fetchRankedPB puid page = (validTimes puid page).min? := by
  refine ⟨fetchRankedPB_eq_head puid page, ?_⟩
  rw [fetchRankedPB_eq_head puid page, head_eq_min_of_sorted hs]

/-- A concrete fastest-sorted page: a valid win at 450000 ms, then a
forfeited (invalid) match, then a slower valid win. -/
def rankedPageExample : List MatchRecord :=
  [ { id := some 10, resultTime := some 450000, resultUuid := some "uuid-a", forfeited := false,
      mtype := some 2, players := [], changes := [] },
    { id := some 11, resultTime := some 400000, resultUuid := some "uuid-a", forfeited := true,
      mtype := some 2, players := [], changes := [] },
    { id := some 12, resultTime := some 500000, resultUuid := some "uuid-a", forfeited := false,
      mtype := some 2, players := [], changes := [] } ]

theorem C8_fetchRankedPB_witness :
    List.Pairwise (· ≤ ·) (validTimes (some "uuid-a") rankedPageExample) ∧
      (fetchRankedPB (some "uuid-a") rankedPageExample =
          (validTimes (some "uuid-a") rankedPageExample).head? ∧
        fetchRankedPB (some "uuid-a") rankedPageExample =
          (validTimes (some "uuid-a") rankedPageExample).min?) :=
  ⟨by decide, C8_fetchRankedPB_first_and_min _ _ (by decide)⟩

/-- Is `t` below the running best (`none` models the initial
`Infinity`)? -/
def belowBest (t : Int) : Option Int → Bool
  | none => true
  | some p => t < p

/-- One iteration of the inner scan of `fetchCasualPrivatePB`
(lines 142–146): a match that validates and whose finite time is positive
and below the running best becomes the new best. -/
def updBest (puid : Option String) (b : Option Int) (m : MatchRecord) : Option Int :=
  if isValidWinForPlayer m puid then
    match m.resultTime with
    | none => b
    | some t => if 0 < t ∧ belowBest t b then some t else b
  else b

/-- The page loop of `fetchCasualPrivatePB` (lines 126–151), at request
index `i` with `fuel` requests remaining and running best `best` (`none`
= `Infinity`).  `pages n` is the match list the source returns for the
`n`-th request of this call (requests are sequential, cursor-paginating
from the previous page's last id; a malformed response is modelled as an
empty list).  The loop stops on an empty page, on a page whose last match
has a nullish id, or after `MAX_PAGES = 20` pages. -/
def fetchCasualPrivatePBAux (puid : Option String) (pages : Nat → List MatchRecord) :
    Nat → Nat → Option Int → Option Int
  | _, 0, best => best
  | i, fuel + 1, best =>
    if (pages i).isEmpty then best
    else
      let best2 := (pages i).foldl (updBest puid) best
      match (pages i).getLast? with
      | none => best2
      | some lm =>
        match lm.id with
        | none => best2
        | some _ => fetchCasualPrivatePBAux puid pages (i + 1) fuel best2

/-- `fetchCasualPrivatePB` (lines 116–154): `null` when the player's
uuid is falsy, else the bounded newest-first scan over up to 20 pages,
returning the running minimum or `null` if it stayed `Infinity`. -/
def fetchCasualPrivatePB (puid : Option String) (pages : Nat → List MatchRecord) : Option Int :=
  if ¬ truthyStr puid then none
  else fetchCasualPrivatePBAux puid pages 0 20 none

/-- The number of pages the scan consumes matches from, starting at
request `i` with `fuel` requests left: counts consecutive non-empty
pages. -/
def scanCount (pages : Nat → List MatchRecord) : Nat → Nat → Nat
  | _, 0 => 0
  | i, fuel + 1 => if (pages i).isEmpty then 0 else scanCount pages (i + 1) fuel + 1

/-- The validated times contributed by the consumed pages, in scan
order. -/
def collectTimes (puid : Option String) (pages : Nat → List MatchRecord) : Nat → Nat → List Int
  | _, 0 => []
  | i, fuel + 1 =>
    if (pages i).isEmpty then []
    else validTimes puid (pages i) ++ collectTimes puid pages (i + 1) fuel

/-- JS running-minimum step on an optional best. -/
def jsMin (b : Option Int) (t : Int) : Option Int :=
  match b with
  | none => some t
  | some p => if t < p then some t else some p

lemma foldl_updBest_eq (puid : Option String) (ms : List MatchRecord) :
    ∀ b, ms.foldl (updBest puid) b = (validTimes puid ms).foldl jsMin b := by
  induction ms with
  | nil => intro b; rfl
  | cons m rest ih =>
    intro b
    by_cases h : isValidWinForPlayer m puid
    · obtain ⟨t, ht, hpos⟩ := valid_time_pos h
      have hstep : updBest puid b m = jsMin b t := by
        cases b with
        | none => simp [updBest, h, ht, belowBest, jsMin, hpos]
        | some p =>
          by_cases hlt : t < p
          · simp [updBest, h, ht, belowBest, jsMin, hpos, hlt]
          · simp [updBest, h, ht, belowBest, jsMin, hpos, hlt]
      simp only [List.foldl_cons, hstep, validTimes, List.filterMap_cons, validTime, h, ht,
        if_true]
      exact ih (jsMin b t)
    · simp only [List.foldl_cons, validTimes, List.filterMap_cons, validTime, h]
      have hstep : updBest puid b m = b := by simp [updBest, h]
      simp only [hstep, Bool.false_eq_true, if_false]
      exact ih b

lemma foldl_jsMin_some (l : List Int) : ∀ p, l.foldl jsMin (some p) = some (l.foldl min p) := by
  induction l with
  | nil => intro p; rfl
  | cons t rest ih =>
    intro p
    have hstep : jsMin (some p) t = some (min p t) := by
      by_cases h : t < p
      · simp [jsMin, h, min_eq_right (le_of_lt h)]
      · simp [jsMin, h, min_eq_left (by omega : p ≤ t)]
    simp only [List.foldl_cons, hstep]
    exact ih (min p t)

lemma foldl_jsMin_none (l : List Int) : l.foldl jsMin none = l.min? := by
  cases l with
  | nil => rfl
  | cons t rest =>
    show rest.foldl jsMin (jsMin none t) = (t :: rest).min?
    have h1 : jsMin none t = some t := rfl
    have h2 : (t :: rest).min? = some (rest.foldl min t) := rfl
    rw [h1, h2, foldl_jsMin_some]

lemma aux_eq_foldl_collect (puid : Option String) (pages : Nat → List MatchRecord) :
    ∀ fuel i b, (∀ j, j < i + fuel → ∀ m ∈ pages j, m.id ≠ none) →
      fetchCasualPrivatePBAux puid pages i fuel b =
        (collectTimes puid pages i fuel).foldl jsMin b := by
  intro fuel
  induction fuel with
  | zero => intro i b _; rfl
  | succ n ih =>
    intro i b hid
    by_cases hemp : (pages i).isEmpty
    · simp [fetchCasualPrivatePBAux, collectTimes, hemp]
    · obtain ⟨lm, hlm⟩ : ∃ lm, (pages i).getLast? = some lm := by
        rcases hgl : (pages i).getLast? with _ | x
        · rw [List.getLast?_eq_none_iff] at hgl
          rw [hgl] at hemp
          simp at hemp
        · exact ⟨x, rfl⟩
      have hmem : lm ∈ pages i := List.mem_of_mem_getLast? (by rw [hlm]; rfl)
      have hidlm : lm.id ≠ none := hid i (by omega) lm hmem
      obtain ⟨idv, hidv⟩ := Option.ne_none_iff_exists'.mp hidlm
      simp only [fetchCasualPrivatePBAux, hemp, Bool.false_eq_true, if_false, hlm, hidv]
      rw [ih (i + 1) _ (fun j hj => hid j (by omega))]
      rw [foldl_updBest_eq]
      simp only [collectTimes, hemp, Bool.false_eq_true, if_false, List.foldl_append]

lemma collectTimes_eq_range (puid : Option String) (pages : Nat → List MatchRecord) :
    ∀ fuel i, collectTimes puid pages i fuel =
      (List.range (scanCount pages i fuel)).flatMap
        (fun j => validTimes puid (pages (i + j))) := by
  intro fuel
  induction fuel with
  | zero => intro i; rfl
  | succ n ih =>
    intro i
    by_cases hemp : (pages i).isEmpty
    · simp [collectTimes, scanCount, hemp]
    · simp only [collectTimes, scanCount, hemp, Bool.false_eq_true, if_false]
      rw [List.range_succ_eq_map, List.flatMap_cons, List.flatMap_map, ih (i + 1)]
      have hfun : (fun a => validTimes puid (pages (i + Nat.succ a))) =
          (fun j => validTimes puid (pages (i + 1 + j))) := by
        funext a
        rw [show i + Nat.succ a = i + 1 + a by omega]
      rw [hfun]
      simp

lemma scanCount_le (pages : Nat → List MatchRecord) :
    ∀ fuel i, scanCount pages i fuel ≤ fuel := by
  intro fuel
  induction fuel with
  | zero => intro i; exact Nat.le_refl 0
  | succ n ih =>
    intro i
    by_cases hemp : (pages i).isEmpty
    · simp [scanCount, hemp]
    · simp only [scanCount, hemp, Bool.false_eq_true, if_false]
      exact Nat.succ_le_succ (ih (i + 1))

lemma scanCount_nonempty (pages : Nat → List MatchRecord) :
    ∀ fuel i j, j < scanCount pages i fuel → pages (i + j) ≠ [] := by
  intro fuel
  induction fuel with
  | zero => intro i j h; simp [scanCount] at h
  | succ n ih =>
    intro i j h
    by_cases hemp : (pages i).isEmpty
    · rw [scanCount, if_pos hemp] at h; omega
    · rw [scanCount, if_neg (by simp [hemp])] at h
      cases j with
      | zero =>
        intro hcon
        simp only [Nat.add_zero] at hcon
        rw [hcon] at hemp
        simp at hemp
      | succ k =>
        have := ih (i + 1) k (by omega)
        rw [show i + (k + 1) = i + 1 + k by omega]
        exact this

lemma scanCount_stop (pages : Nat → List MatchRecord) :
    ∀ fuel i, scanCount pages i fuel < fuel → pages (i + scanCount pages i fuel) = [] := by
  intro fuel
  induction fuel with
  | zero => intro i h; omega
  | succ n ih =>
    intro i h
    by_cases hemp : (pages i).isEmpty
    · rw [scanCount, if_pos hemp]
      rw [scanCount, if_pos hemp] at h
      rw [Nat.add_zero]
      exact List.isEmpty_iff.mp hemp
    · rw [scanCount, if_neg (by simp [hemp])]
      rw [scanCount, if_neg (by simp [hemp])] at h
      have := ih (i + 1) (by omega)
      rw [show i + (scanCount pages (i + 1) n + 1) = i + 1 + scanCount pages (i + 1) n by omega]
      exact this

lemma valid_false_of_falsy {puid : Option String} (h : truthyStr puid = false)
    (m : MatchRecord) : isValidWinForPlayer m puid = false := by
  unfold isValidWinForPlayer
  cases m.resultTime with
  | none => rfl
  | some t =>
    by_cases h1 : t ≤ 0
    · simp [h1]
    · by_cases h2 : m.forfeited
      · simp [h1, h2]
      · by_cases h3 : truthyStr m.resultUuid
        · simp [h1, h2, h3, h]
        · simp [h1, h2, h3]

lemma validTimes_falsy {puid : Option String} (h : truthyStr puid = false)
    (ms : List MatchRecord) : validTimes puid ms = [] := by
  induction ms with
  | nil => rfl
  | cons m rest ih =>
    simp only [validTimes, List.filterMap_cons, validTime, valid_false_of_falsy h m,
      Bool.false_eq_true, if_false]
    exact ih

/-- Claim C3: for every fixed sequence of paginated pages (whose matches
all carry ids, as the data model requires), `fetchCasualPrivatePB`
returns the minimum validated time across exactly the pages it scans
(`none` if no match validates), and scanning stops exactly at the first
empty page or at the 20-page ceiling, whichever comes first: the scanned
prefix consists of `n` consecutive non-empty pages with `n ≤ 20`, and if
`n < 20` then page `n` is the empty page that stopped the scan. -/
theorem C3_fetchCasualPrivatePB_min_and_stop (puid : Option String)
    (pages : Nat → List MatchRecord)
    (hid : ∀ j < 20, ∀ m ∈ pages j, m.id ≠ none) :
    ∃ n, n ≤ 20 ∧
      (∀ i < n, pages i ≠ []) ∧
      (n < 20 → pages n = []) ∧
      fetchCasualPrivatePB puid pages =
        ((List.range n).flatMap (fun i => validTimes puid (pages i))).min? := by
  refine ⟨scanCount pages 0 20, scanCount_le pages 20 0, ?_, ?_, ?_⟩
  · intro i hi
    have := scanCount_nonempty pages 20 0 i hi
    simpa using this
  · intro h
    have := scanCount_stop pages 20 0 h
    simpa using this
  · by_cases hp : truthyStr puid
    · rw [fetchCasualPrivatePB, if_neg (by simp [hp])]
      rw [aux_eq_foldl_collect puid pages 20 0 none (fun j hj m hm => hid j (by omega) m hm)]
      rw [collectTimes_eq_range, foldl_jsMin_none]
      have hfun : (fun j => validTimes puid (pages (0 + j))) =
          (fun i => validTimes puid (pages i)) := by
        funext a
        rw [Nat.zero_add]
      rw [hfun]
    · have hfalse : truthyStr puid = false := by
        cases htp : truthyStr puid
        · rfl
        · exact absurd htp hp
      rw [fetchCasualPrivatePB, if_pos (by simp [hfalse])]
      have hnil : (List.range (scanCount pages 0 20)).flatMap
          (fun i => validTimes puid (pages i)) = [] := by
        induction List.range (scanCount pages 0 20) with
        | nil => rfl
        | cons a rest ih =>
          rw [List.flatMap_cons, validTimes_falsy hfalse, List.nil_append]
          exact ih
      rw [hnil]
      rfl

/-- A concrete scan trace: two non-empty newest-first pages (the faster
validated win sits on the second page), then an empty page. -/
def casualPagesExample : Nat → List MatchRecord :=
  fun i =>
    if i = 0 then
      [ { id := some 30, resultTime := some 700000, resultUuid := some "uuid-a",
          forfeited := false, mtype := some 1, players := [], changes := [] },
        { id := some 29, resultTime := some 620000, resultUuid := some "uuid-b",
          forfeited := false, mtype := some 1, players := [], changes := [] } ]
    else if i = 1 then
      [ { id := some 28, resultTime := some 650000, resultUuid := some "uuid-a",
          forfeited := false, mtype := some 1, players := [], changes := [] } ]
    else []

theorem C3_fetchCasualPrivatePB_witness :
    (∀ j < 20, ∀ m ∈ casualPagesExample j, m.id ≠ none) ∧
      (∃ n, n ≤ 20 ∧
        (∀ i < n, casualPagesExample i ≠ []) ∧
        (n < 20 → casualPagesExample n = []) ∧
        fetchCasualPrivatePB (some "uuid-a") casualPagesExample =
          ((List.range n).flatMap
            (fun i => validTimes (some "uuid-a") (casualPagesExample i))).min?) :=
  ⟨by decide, C3_fetchCasualPrivatePB_min_and_stop _ _ (by decide)⟩

/-- The roster of tracked players (`players`, lines 10–19). -/
def players : List String :=
  ["JerryBox", "tumblintim", "ilovehuntercr", "jeefq", "LegitNG", "superboy80",
   "SDxSHOcK", "MyKicksInBay"]

/-- The tracked match types (`TRACK_TYPES`, line 25): 1 = Casual,
2 = Ranked, 3 = Private. -/
def TRACK_TYPES : List Nat := [1, 2, 3]

/-- `typeLabel` (lines 59–65). -/
def typeLabel (t : Nat) : String :=
  if t = 1 then "Casual"
  else if t = 2 then "Ranked"
  else if t = 3 then "Private"
  else if t = 4 then "Event"
  else "Match"

/-- `getPlacementMessage` (lines 67–72); `place` is the JS number
`findIndex(...) + 1`. -/
def getPlacementMessage (place : Int) (player ty : String) : Option String :=
  if place = 1 then some ("👑 **" ++ player ++ " TAKES #1 (" ++ ty ++ ")!!** 👑")
  else if place = 2 then some ("🥈 **" ++ player ++ " moves into #2 (" ++ ty ++ ")!**")
  else if place = 3 then some ("🥉 **" ++ player ++ " breaks into #3 (" ++ ty ++ ")!**")
  else none

/-- Association-list lookup, mirroring JS property read `obj[k]`
(`none` = `undefined`). -/
def alookup {α β : Type} [DecidableEq α] (k : α) : List (α × β) → Option β
  | [] => none
  | (a, b) :: rest => if a = k then some b else alookup k rest

/-- Association-list write `obj[k] = v`: overwrite in place (JS keeps an
existing key's insertion position), append when absent. -/
def aupsert {α β : Type} [DecidableEq α] (k : α) (v : β) : List (α × β) → List (α × β)
  | [] => [(k, v)]
  | (a, b) :: rest => if a = k then (k, v) :: rest else (a, b) :: aupsert k v rest

lemma alookup_aupsert_self {α β : Type} [DecidableEq α] (k : α) (v : β) (l : List (α × β)) :
    alookup k (aupsert k v l) = some v := by
  induction l with
  | nil => simp [alookup, aupsert]
  | cons e rest ih =>
    obtain ⟨a, b⟩ := e
    by_cases h : a = k
    · simp [alookup, aupsert, h]
    · simp [alookup, aupsert, h, ih]

lemma alookup_aupsert_ne {α β : Type} [DecidableEq α] {k k' : α} (h : k' ≠ k) (v : β)
    (l : List (α × β)) : alookup k (aupsert k' v l) = alookup k l := by
  induction l with
  | nil => simp [alookup, aupsert, h]
  | cons e rest ih =>
    obtain ⟨a, b⟩ := e
    by_cases ha : a = k'
    · subst ha
      simp [alookup, aupsert, h]
    · by_cases hk : a = k
      · subst hk
        simp only [aupsert, if_neg (show ¬ a = k' from fun hh => h hh.symm)]
        simp [alookup]
      · simp [alookup, aupsert, ha, hk, ih]

/-- A persisted scalar viewed through `Number(·)`: `some v` when finite,
`none` when the stored value is absent or coerces to `NaN`/`±Infinity`. -/
abbrev JSNum := Option Int

/-- The slice of `state.json` the PB updater reads and writes:
`pbByType[t][p]` and the cached `top3ByType[t]`.  The JS code also
materialises `state.pbByType[t] = state.pbByType[t] || {}` before use;
here reads simply default a missing type key to the empty map, which is
observationally the same. -/
structure PBState where
  pbByType : List (Nat × List (String × JSNum))
  top3ByType : List (Nat × List String)
deriving Repr, DecidableEq

/-- `state.pbByType?.[t]`, defaulted to the empty map. -/
def getTypeMap (st : PBState) (t : Nat) : List (String × JSNum) :=
  (alookup t st.pbByType).getD []

/-- The raw stored entry `state.pbByType?.[t]?.[p]` (`none` = absent). -/
def lookupEntry (st : PBState) (t : Nat) (p : String) : Option JSNum :=
  alookup p (getTypeMap st t)

/-- `Number(state.pbByType[t][p])` when finite: `none` on an absent key
or a stored value that does not coerce to a finite number. -/
def lookupNum (st : PBState) (t : Nat) (p : String) : JSNum :=
  (lookupEntry st t p).getD none

/-- The write `state.pbByType[t][p] = v` (`v` a finite number). -/
def setPB (st : PBState) (t : Nat) (p : String) (v : Int) : PBState :=
  { st with pbByType := aupsert t (aupsert p (some v) (getTypeMap st t)) st.pbByType }

/-- `Object.entries(map).map(([n, v]) => [n, Number(v)]).filter(([, v]) =>
Number.isFinite(v) && v > 0)` (lines 373–375, also 223–225). -/
def finitePosEntries (tm : List (String × JSNum)) : List (String × Int) :=
  tm.filterMap (fun e =>
    match e.2 with
    | some v => if 0 < v then some (e.1, v) else none
    | none => none)

/-- Stable ascending insertion by time: the inserted element lands after
every already-placed element with a less-or-equal time. -/
def insertAsc (e : String × Int) : List (String × Int) → List (String × Int)
  | [] => [e]
  | f :: rest => if f.2 ≤ e.2 then f :: insertAsc e rest else e :: f :: rest

/-- Stable ascending sort by time; a stable sorted permutation is unique,
so this agrees with JS's stable `sort((a, b) => a[1] - b[1])`. -/
def sortAsc (l : List (String × Int)) : List (String × Int) :=
  l.foldl (fun acc e => insertAsc e acc) []

/-- The sorted `[name, time]` rows used for placement (lines 373–376). -/
def rankedRows (tm : List (String × JSNum)) : List (String × Int) :=
  sortAsc (finitePosEntries tm)

/-- JS `Array.prototype.findIndex`: `-1` when no element matches. -/
def findIdxJS {α : Type} (pred : α → Bool) (l : List α) : Int :=
  if l.findIdx pred < l.length then (l.findIdx pred : Int) else -1

/-- `sorted.findIndex(([name]) => name === p) + 1` (line 378). -/
def placementOf (tm : List (String × JSNum)) (p : String) : Int :=
  findIdxJS (fun e => e.1 == p) (rankedRows tm) + 1

/-- `computeTop3` (lines 222–229): names of the three fastest finite
positive entries. -/
def computeTop3 (tm : List (String × JSNum)) : List String :=
  ((rankedRows tm).take 3).map Prod.fst

/-- The observable actions of one PB-updater tick, in program order:
`save` records a `saveState` call with the state written; `sendPlace` and
`sendPB` record the `channel.send` calls of lines 387 and 391–393 by the
data that renders their messages. -/
inductive PBEv
  | save (s : PBState)
  | sendPlace (place : Int) (player ty : String)
  | sendPB (ty player : String) (newT oldT : Int)
deriving Repr, DecidableEq

/-- The send calls of an accepted improvement (lines 383–393), in program
order, evaluated on the post-update state `st`: the placement message is
sent only when the JS place `findIndex + 1` is in range, the rendered
message is non-null, and the pre-update top-3 occupant of that slot is
not `p`; the PB-improvement message always follows. -/
def improveEvents (oldTop3 : List String) (t : Nat) (p : String) (latest prev : Int)
    (st : PBState) : List PBEv :=
  (if 1 ≤ placementOf (getTypeMap st t) p ∧ placementOf (getTypeMap st t) p ≤ 3 then
    match getPlacementMessage (placementOf (getTypeMap st t) p) p (typeLabel t) with
    | some _ =>
      if oldTop3.get? (placementOf (getTypeMap st t) p - 1).toNat ≠ some p then
        [PBEv.sendPlace (placementOf (getTypeMap st t) p) p (typeLabel t)]
      else []
    | none => []
  else []) ++ [PBEv.sendPB (typeLabel t) p latest prev]

/-- The per-player body of the PB updater (lines 359–395).  `resolve t p`
is this tick's oracle for `await fetchPBTime(p, t).catch(() => null)`:
`some v` when it produced the number `v`, `none` when it produced `null`
(source error, timeout, malformed payload, or no validated match). -/
def stepPlayer (resolve : Nat → String → Option Int) (t : Nat) (oldTop3 : List String)
    (acc : PBState × List PBEv) (p : String) : PBState × List PBEv :=
  match resolve t p with
  | none => acc
  | some latest =>
    match lookupNum acc.1 t p with
    | none => (setPB acc.1 t p latest, acc.2)
    | some prev =>
      if prev ≤ 0 then (setPB acc.1 t p latest, acc.2)
      else if latest < prev then
        (setPB acc.1 t p latest,
          acc.2 ++ PBEv.save (setPB acc.1 t p latest) ::
            improveEvents oldTop3 t p latest prev (setPB acc.1 t p latest))
      else acc

/-- The per-type body of the PB updater (lines 355–398): snapshot the old
top 3, process every roster player, then recompute and cache the top 3. -/
def stepType (resolve : Nat → String → Option Int) (acc : PBState × List PBEv) (t : Nat) :
    PBState × List PBEv :=
  let oldTop3 := (alookup t acc.1.top3ByType).getD []
  let out := players.foldl (stepPlayer resolve t oldTop3) acc
  ({ out.1 with
      top3ByType := aupsert t (computeTop3 (getTypeMap out.1 t)) out.1.top3ByType },
    out.2)

/-- One full tick of the PB updater (lines 350–404): `st0` is what
`loadState()` returned at the start of the tick, and the trailing `save`
records the `saveState(state)` after all types (line 400; the board
re-render that follows involves no further state logic). -/
def pbTick (resolve : Nat → String → Option Int) (st0 : PBState) : PBState × List PBEv :=
  let out := TRACK_TYPES.foldl (stepType resolve) (st0, [])
  (out.1, out.2 ++ [PBEv.save out.1])

lemma getTypeMap_setPB (st : PBState) (t : Nat) (p : String) (v : Int) (t' : Nat) :
    getTypeMap (setPB st t p v) t' =
      if t' = t then aupsert p (some v) (getTypeMap st t) else getTypeMap st t' := by
  by_cases h : t' = t
  · subst h
    simp [getTypeMap, setPB, alookup_aupsert_self]
  · simp [getTypeMap, setPB, alookup_aupsert_ne (show t ≠ t' from fun hh => h hh.symm), h]

lemma lookupNum_setPB_self (st : PBState) (t : Nat) (p : String) (v : Int) :
    lookupNum (setPB st t p v) t p = some v := by
  simp [lookupNum, lookupEntry, getTypeMap_setPB, alookup_aupsert_self]

lemma lookupEntry_setPB_ne (st : PBState) (t : Nat) (p : String) (v : Int) (t' : Nat)
    (p' : String) (h : ¬ (t = t' ∧ p = p')) :
    lookupEntry (setPB st t p v) t' p' = lookupEntry st t' p' := by
  by_cases ht : t' = t
  · subst ht
    have hp : p ≠ p' := fun hp => h ⟨rfl, hp⟩
    simp [lookupEntry, getTypeMap_setPB, alookup_aupsert_ne hp]
  · simp [lookupEntry, getTypeMap_setPB, ht]

lemma getPlacementMessage_isSome {place : Int} (h1 : 1 ≤ place) (h3 : place ≤ 3)
    (p ty : String) : ∃ s, getPlacementMessage place p ty = some s := by
  unfold getPlacementMessage
  by_cases e1 : place = 1
  · simp [e1]
  · by_cases e2 : place = 2
    · simp [e1, e2]
    · have e3 : place = 3 := by omega
      simp [e1, e2, e3]

lemma stepPlayer_skip {resolve : Nat → String → Option Int} {t : Nat} {p : String}
    (old3 : List String) (st : PBState) (evs : List PBEv)
    (hres : resolve t p = none) :
    stepPlayer resolve t old3 (st, evs) p = (st, evs) := by
  simp [stepPlayer, hres]

lemma stepPlayer_fresh {resolve : Nat → String → Option Int} {t : Nat} {p : String}
    {latest : Int} (old3 : List String) (st : PBState) (evs : List PBEv)
    (hres : resolve t p = some latest) (hnum : lookupNum st t p = none) :
    stepPlayer resolve t old3 (st, evs) p = (setPB st t p latest, evs) := by
  simp [stepPlayer, hres, hnum]

lemma stepPlayer_junk {resolve : Nat → String → Option Int} {t : Nat} {p : String}
    {latest prev : Int} (old3 : List String) (st : PBState) (evs : List PBEv)
    (hres : resolve t p = some latest) (hnum : lookupNum st t p = some prev)
    (h0 : prev ≤ 0) :
    stepPlayer resolve t old3 (st, evs) p = (setPB st t p latest, evs) := by
  simp [stepPlayer, hres, hnum, h0]

lemma stepPlayer_noimp {resolve : Nat → String → Option Int} {t : Nat} {p : String}
    {latest prev : Int} (old3 : List String) (st : PBState) (evs : List PBEv)
    (hres : resolve t p = some latest) (hnum : lookupNum st t p = some prev)
    (hpos : 0 < prev) (hni : ¬ latest < prev) :
    stepPlayer resolve t old3 (st, evs) p = (st, evs) := by
  have h0 : ¬ prev ≤ 0 := by omega
  simp only [stepPlayer, hres, hnum]
  rw [if_neg h0, if_neg hni]

lemma stepPlayer_improve {resolve : Nat → String → Option Int} {t : Nat} {p : String}
    {latest prev : Int} (old3 : List String) (st : PBState) (evs : List PBEv)
    (hres : resolve t p = some latest) (hnum : lookupNum st t p = some prev)
    (hpos : 0 < prev) (himp : latest < prev) :
    stepPlayer resolve t old3 (st, evs) p =
      (setPB st t p latest,
        evs ++ PBEv.save (setPB st t p latest) ::
          improveEvents old3 t p latest prev (setPB st t p latest)) := by
  have h0 : ¬ prev ≤ 0 := by omega
  simp only [stepPlayer, hres, hnum]
  rw [if_neg h0, if_pos himp]

lemma improveEvents_eq (old3 : List String) (t : Nat) (p : String) (latest prev : Int)
    (st : PBState) :
    improveEvents old3 t p latest prev st =
      (if 1 ≤ placementOf (getTypeMap st t) p ∧ placementOf (getTypeMap st t) p ≤ 3 ∧
          old3.get? (placementOf (getTypeMap st t) p - 1).toNat ≠ some p
        then [PBEv.sendPlace (placementOf (getTypeMap st t) p) p (typeLabel t)]
        else []) ++ [PBEv.sendPB (typeLabel t) p latest prev] := by
  unfold improveEvents
  by_cases hin : 1 ≤ placementOf (getTypeMap st t) p ∧ placementOf (getTypeMap st t) p ≤ 3
  · obtain ⟨msg, hmsg⟩ := getPlacementMessage_isSome hin.1 hin.2 p (typeLabel t)
    rw [if_pos hin, hmsg]
    by_cases hdiff : old3.get? (placementOf (getTypeMap st t) p - 1).toNat = some p
    · rw [if_neg (not_not_intro hdiff),
        if_neg (fun hcon => hcon.2.2 hdiff)]
    · rw [if_pos hdiff, if_pos ⟨hin.1, hin.2, hdiff⟩]
  · rw [if_neg hin, if_neg (fun hcon => hin ⟨hcon.1, hcon.2.1⟩)]

/-- `fetchPBTime` (lines 156–161), as a function of the page data the
source would serve this call: type 2 uses the ranked resolver on the
single fastest-sorted page, types 1 and 3 the bounded newest-first scan,
any other type resolves to `null`. -/
def fetchPBTime (puid : Option String) (rankedPage : List MatchRecord)
    (pages : Nat → List MatchRecord) (matchType : Nat) : Option Int :=
  if matchType = 2 then fetchRankedPB puid rankedPage
  else if matchType = 1 ∨ matchType = 3 then fetchCasualPrivatePB puid pages
  else none

lemma fetchRankedPB_pos {puid : Option String} {ms : List MatchRecord} {v : Int}
    (h : fetchRankedPB puid ms = some v) : 0 < v := by
  induction ms with
  | nil => simp [fetchRankedPB] at h
  | cons m rest ih =>
    by_cases hv : isValidWinForPlayer m puid
    · obtain ⟨t, ht, hpos⟩ := valid_time_pos hv
      rw [fetchRankedPB, if_pos hv, ht] at h
      injection h with h
      omega
    · rw [fetchRankedPB, if_neg hv] at h
      exact ih h

lemma updBest_pos (puid : Option String) (b : Option Int) (m : MatchRecord)
    (h : ∀ x, b = some x → 0 < x) : ∀ x, updBest puid b m = some x → 0 < x := by
  intro x hx
  unfold updBest at hx
  by_cases hv : isValidWinForPlayer m puid
  · rw [if_pos hv] at hx
    cases hm : m.resultTime with
    | none => rw [hm] at hx; exact h x hx
    | some t =>
      simp only [hm] at hx
      by_cases hc : 0 < t ∧ belowBest t b
      · rw [if_pos hc] at hx
        injection hx with hx
        omega
      · rw [if_neg hc] at hx
        exact h x hx
  · rw [if_neg hv] at hx
    exact h x hx

lemma foldl_updBest_pos (puid : Option String) (ms : List MatchRecord) :
    ∀ b, (∀ x, b = some x → 0 < x) →
      ∀ x, ms.foldl (updBest puid) b = some x → 0 < x := by
  induction ms with
  | nil => intro b hb; exact hb
  | cons m rest ih => intro b hb; exact ih _ (updBest_pos puid b m hb)

lemma fetchCasualPrivatePBAux_pos (puid : Option String) (pages : Nat → List MatchRecord) :
    ∀ fuel i b, (∀ x, b = some x → 0 < x) →
      ∀ v, fetchCasualPrivatePBAux puid pages i fuel b = some v → 0 < v := by
  intro fuel
  induction fuel with
  | zero => intro i b hb; exact hb
  | succ n ih =>
    intro i b hb v hv
    simp only [fetchCasualPrivatePBAux] at hv
    split at hv
    · exact hb v hv
    · split at hv
      · exact foldl_updBest_pos puid _ _ hb v hv
      · split at hv
        · exact foldl_updBest_pos puid _ _ hb v hv
        · exact ih (i + 1) _ (foldl_updBest_pos puid _ _ hb) v hv

lemma fetchCasualPrivatePB_pos {puid : Option String} {pages : Nat → List MatchRecord}
    {v : Int} (h : fetchCasualPrivatePB puid pages = some v) : 0 < v := by
  unfold fetchCasualPrivatePB at h
  by_cases hp : ¬ truthyStr puid
  · rw [if_pos hp] at h
    cases h
  · rw [if_neg hp] at h
    exact fetchCasualPrivatePBAux_pos puid pages 20 0 none (by intro x hx; cases hx) v h

/-- The program's resolver only ever produces strictly positive times:
validated completion times are positive, and both strategies return one
of them or `null`. -/
lemma fetchPBTime_pos (puid : Option String) (rankedPage : List MatchRecord)
    (pages : Nat → List MatchRecord) (matchType : Nat) (v : Int)
    (h : fetchPBTime puid rankedPage pages matchType = some v) : 0 < v := by
  unfold fetchPBTime at h
  by_cases h2 : matchType = 2
  · rw [if_pos h2] at h
    exact fetchRankedPB_pos h
  · rw [if_neg h2] at h
    by_cases h13 : matchType = 1 ∨ matchType = 3
    · rw [if_pos h13] at h
      exact fetchCasualPrivatePB_pos h
    · rw [if_neg h13] at h
      cases h

/-- `st'` neither loses nor regresses upward any strictly-positive
recorded best of `st` (and keeps it strictly positive). -/
def NoRegress (st st' : PBState) : Prop :=
  ∀ t p v, lookupNum st t p = some v → 0 < v →
    ∃ w, lookupNum st' t p = some w ∧ w ≤ v ∧ 0 < w

lemma noRegress_refl (st : PBState) : NoRegress st st :=
  fun _ _ v hv hpos => ⟨v, hv, le_refl v, hpos⟩

lemma noRegress_trans {a b c : PBState} (h1 : NoRegress a b) (h2 : NoRegress b c) :
    NoRegress a c := by
  intro t p v hv hpos
  obtain ⟨w, hw, hle, hwpos⟩ := h1 t p v hv hpos
  obtain ⟨x, hx, hxle, hxpos⟩ := h2 t p w hw hwpos
  exact ⟨x, hx, le_trans hxle hle, hxpos⟩

lemma stepPlayer_noRegress (resolve : Nat → String → Option Int)
    (hres_pos : ∀ t p v, resolve t p = some v → 0 < v) (t : Nat) (old3 : List String)
    (st : PBState) (evs : List PBEv) (p : String) :
    NoRegress st (stepPlayer resolve t old3 (st, evs) p).1 := by
  intro t' p' v hv hvpos
  cases hres : resolve t p with
  | none =>
    rw [stepPlayer_skip old3 st evs hres]
    exact ⟨v, hv, le_refl v, hvpos⟩
  | some latest =>
    have hlat : 0 < latest := hres_pos t p latest hres
    by_cases heq : t = t' ∧ p = p'
    · obtain ⟨rfl, rfl⟩ := heq
      cases hnum : lookupNum st t p with
      | none => rw [hv] at hnum; cases hnum
      | some prev =>
        have hpv : prev = v := by rw [hv] at hnum; injection hnum with h; exact h.symm
        subst hpv
        by_cases himp : latest < prev
        · rw [stepPlayer_improve old3 st evs hres hnum hvpos himp]
          exact ⟨latest, lookupNum_setPB_self st t p latest, le_of_lt himp, hlat⟩
        · rw [stepPlayer_noimp old3 st evs hres hnum hvpos himp]
          exact ⟨prev, hv, le_refl _, hvpos⟩
    · have hpre : ∀ x : Int, lookupNum (setPB st t p x) t' p' = lookupNum st t' p' := by
        intro x
        unfold lookupNum
        rw [lookupEntry_setPB_ne st t p x t' p' heq]
      cases hnum : lookupNum st t p with
      | none =>
        rw [stepPlayer_fresh old3 st evs hres hnum]
        exact ⟨v, by rw [hpre latest]; exact hv, le_refl v, hvpos⟩
      | some prev =>
        by_cases h0 : prev ≤ 0
        · rw [stepPlayer_junk old3 st evs hres hnum h0]
          exact ⟨v, by rw [hpre latest]; exact hv, le_refl v, hvpos⟩
        · by_cases himp : latest < prev
          · rw [stepPlayer_improve old3 st evs hres hnum (by omega) himp]
            exact ⟨v, by rw [hpre latest]; exact hv, le_refl v, hvpos⟩
          · rw [stepPlayer_noimp old3 st evs hres hnum (by omega) himp]
            exact ⟨v, hv, le_refl v, hvpos⟩

lemma foldl_noRegress {α : Type} (f : PBState × List PBEv → α → PBState × List PBEv)
    (hf : ∀ acc x, NoRegress acc.1 (f acc x).1) :
    ∀ (l : List α) (acc : PBState × List PBEv), NoRegress acc.1 (l.foldl f acc).1 := by
  intro l
  induction l with
  | nil => intro acc; exact noRegress_refl _
  | cons x rest ih =>
    intro acc
    exact noRegress_trans (hf acc x) (ih (f acc x))

lemma stepType_noRegress (resolve : Nat → String → Option Int)
    (hres_pos : ∀ t p v, resolve t p = some v → 0 < v)
    (acc : PBState × List PBEv) (t : Nat) :
    NoRegress acc.1 (stepType resolve acc t).1 := by
  intro t' p' v hv hvpos
  have h := foldl_noRegress (stepPlayer resolve t ((alookup t acc.1.top3ByType).getD []))
      (fun acc2 q => stepPlayer_noRegress resolve hres_pos t _ acc2.1 acc2.2 q) players acc
  obtain ⟨w, hw, hle, hwpos⟩ := h t' p' v hv hvpos
  exact ⟨w, hw, hle, hwpos⟩

/-- Claim C2: across one tick of the PB-update loop, a stored best time
that is strictly positive never increases: it either survives unchanged
or is replaced by a strictly smaller resolved time.  The hypothesis that
the resolver oracle only produces strictly positive numbers is satisfied
by the program's resolver (`fetchPBTime_pos`); external resets happen
between ticks and are out of scope.  Over consecutive ticks the property
composes, since each tick starts from the state the previous one saved. -/
theorem C2_pb_never_increases (resolve : Nat → String → Option Int)
    (hres_pos : ∀ t p v, resolve t p = some v → 0 < v)
    (st0 : PBState) (t : Nat) (p : String) (v : Int)
    (hv : lookupNum st0 t p = some v) (hvpos : 0 < v) :
    ∃ w, lookupNum (pbTick resolve st0).1 t p = some w ∧ w ≤ v := by
  have h := foldl_noRegress (stepType resolve)
      (fun acc x => stepType_noRegress resolve hres_pos acc x) TRACK_TYPES (st0, [])
  obtain ⟨w, hw, hle, _⟩ := h t p v hv hvpos
  exact ⟨w, hw, hle⟩

/-- A tick oracle that resolves every (type, player) to 580000 ms. -/
def resolveImp : Nat → String → Option Int := fun _ _ => some 580000

/-- A loaded state holding a slower prior best for JerryBox in Ranked. -/
def stImp : PBState :=
  { pbByType := [(2, [("JerryBox", some 600000)])],
    top3ByType := [(2, ["tumblintim", "JerryBox"])] }

theorem C2_pb_never_increases_witness :
    ((∀ t p v, resolveImp t p = some v → 0 < v) ∧
        lookupNum stImp 2 "JerryBox" = some 600000 ∧ (0 : Int) < 600000) ∧
      ∃ w, lookupNum (pbTick resolveImp stImp).1 2 "JerryBox" = some w ∧ w ≤ 600000 :=
  ⟨⟨fun t p v h => by injection h with h; omega, rfl, by norm_num⟩,
    C2_pb_never_increases resolveImp (fun t p v h => by injection h with h; omega)
      stImp 2 "JerryBox" 600000 rfl (by norm_num)⟩

/-- Does event `ev` announce something about player `q` under type label
`ty`?  `save` events are persistence, not announcements. -/
def announces (ty q : String) : PBEv → Bool
  | PBEv.save _ => false
  | PBEv.sendPlace _ pl lbl => pl == q && lbl == ty
  | PBEv.sendPB lbl pl _ _ => pl == q && lbl == ty

lemma stepPlayer_announces (resolve : Nat → String → Option Int) (t : Nat)
    (old3 : List String) (st : PBState) (evs : List PBEv) (p ty q : String) :
    ∀ ev ∈ (stepPlayer resolve t old3 (st, evs) p).2, announces ty q ev = true →
      ev ∈ evs ∨ (ty = typeLabel t ∧ resolve t q ≠ none) := by
  intro ev hev hann
  cases hres : resolve t p with
  | none =>
    rw [stepPlayer_skip old3 st evs hres] at hev
    exact Or.inl hev
  | some latest =>
    cases hnum : lookupNum st t p with
    | none =>
      rw [stepPlayer_fresh old3 st evs hres hnum] at hev
      exact Or.inl hev
    | some prev =>
      by_cases h0 : prev ≤ 0
      · rw [stepPlayer_junk old3 st evs hres hnum h0] at hev
        exact Or.inl hev
      · by_cases himp : latest < prev
        · rw [stepPlayer_improve old3 st evs hres hnum (by omega) himp] at hev
          rcases List.mem_append.mp hev with h | h
          · exact Or.inl h
          · rcases List.mem_cons.mp h with rfl | h2
            · simp [announces] at hann
            · rw [improveEvents_eq] at h2
              rcases List.mem_append.mp h2 with h3 | h3
              · by_cases hc : 1 ≤ placementOf (getTypeMap (setPB st t p latest) t) p ∧
                    placementOf (getTypeMap (setPB st t p latest) t) p ≤ 3 ∧
                    old3.get?
                      (placementOf (getTypeMap (setPB st t p latest) t) p - 1).toNat ≠
                      some p
                · rw [if_pos hc] at h3
                  obtain rfl := List.mem_singleton.mp h3
                  simp only [announces, Bool.and_eq_true, beq_iff_eq] at hann
                  obtain ⟨rfl, rfl⟩ := hann
                  exact Or.inr ⟨rfl, by rw [hres]; exact fun hcon => Option.noConfusion hcon⟩
                · rw [if_neg hc] at h3
                  cases h3
              · obtain rfl := List.mem_singleton.mp h3
                simp only [announces, Bool.and_eq_true, beq_iff_eq] at hann
                obtain ⟨rfl, rfl⟩ := hann
                exact Or.inr ⟨rfl, by rw [hres]; exact fun hcon => Option.noConfusion hcon⟩
        · rw [stepPlayer_noimp old3 st evs hres hnum (by omega) himp] at hev
          exact Or.inl hev

lemma foldl_stepPlayer_announces (resolve : Nat → String → Option Int) (t : Nat)
    (old3 : List String) (ty q : String) :
    ∀ (l : List String) (acc : PBState × List PBEv),
      ∀ ev ∈ (l.foldl (stepPlayer resolve t old3) acc).2, announces ty q ev = true →
        ev ∈ acc.2 ∨ (ty = typeLabel t ∧ resolve t q ≠ none) := by
  intro l
  induction l with
  | nil => intro acc ev hev hann; exact Or.inl hev
  | cons x rest ih =>
    intro acc ev hev hann
    rcases ih (stepPlayer resolve t old3 acc x) ev hev hann with h | h
    · exact stepPlayer_announces resolve t old3 acc.1 acc.2 x ty q ev h hann
    · exact Or.inr h

lemma foldl_stepType_announces (resolve : Nat → String → Option Int) (ty q : String) :
    ∀ (ts : List Nat) (acc : PBState × List PBEv),
      ∀ ev ∈ (ts.foldl (stepType resolve) acc).2, announces ty q ev = true →
        ev ∈ acc.2 ∨ ∃ t ∈ ts, ty = typeLabel t ∧ resolve t q ≠ none := by
  intro ts
  induction ts with
  | nil => intro acc ev hev hann; exact Or.inl hev
  | cons t rest ih =>
    intro acc ev hev hann
    rcases ih (stepType resolve acc t) ev hev hann with h | h
    · rcases foldl_stepPlayer_announces resolve t ((alookup t acc.1.top3ByType).getD [])
          ty q players acc ev h hann with h3 | h3
      · exact Or.inl h3
      · exact Or.inr ⟨t, by simp, h3⟩
    · obtain ⟨t', ht', hc⟩ := h
      exact Or.inr ⟨t', by simp [ht'], hc⟩

lemma pbTick_announces (resolve : Nat → String → Option Int) (st0 : PBState)
    (ty q : String) :
    ∀ ev ∈ (pbTick resolve st0).2, announces ty q ev = true →
      ∃ t ∈ TRACK_TYPES, ty = typeLabel t ∧ resolve t q ≠ none := by
  intro ev hev hann
  have hev2 : ev ∈ (TRACK_TYPES.foldl (stepType resolve) (st0, [])).2 ++
      [PBEv.save (TRACK_TYPES.foldl (stepType resolve) (st0, [])).1] := hev
  rcases List.mem_append.mp hev2 with h | h
  · rcases foldl_stepType_announces resolve ty q TRACK_TYPES (st0, []) ev h hann with h2 | h2
    · cases h2
    · exact h2
  · obtain rfl := List.mem_singleton.mp h
    simp [announces] at hann

lemma stepPlayer_preserves_entry (resolve : Nat → String → Option Int) (t : Nat)
    (old3 : List String) (st : PBState) (evs : List PBEv) (p : String) (t0 : Nat)
    (p0 : String) (h : resolve t0 p0 = none ∨ ¬ (t = t0 ∧ p = p0)) :
    lookupEntry (stepPlayer resolve t old3 (st, evs) p).1 t0 p0 = lookupEntry st t0 p0 := by
  cases hres : resolve t p with
  | none => rw [stepPlayer_skip old3 st evs hres]
  | some latest =>
    have hne : ¬ (t = t0 ∧ p = p0) := by
      rcases h with h | h
      · rintro ⟨rfl, rfl⟩
        rw [hres] at h
        cases h
      · exact h
    cases hnum : lookupNum st t p with
    | none =>
      rw [stepPlayer_fresh old3 st evs hres hnum]
      exact lookupEntry_setPB_ne st t p latest t0 p0 hne
    | some prev =>
      by_cases h0 : prev ≤ 0
      · rw [stepPlayer_junk old3 st evs hres hnum h0]
        exact lookupEntry_setPB_ne st t p latest t0 p0 hne
      · by_cases himp : latest < prev
        · rw [stepPlayer_improve old3 st evs hres hnum (by omega) himp]
          exact lookupEntry_setPB_ne st t p latest t0 p0 hne
        · rw [stepPlayer_noimp old3 st evs hres hnum (by omega) himp]

lemma foldl_stepPlayer_preserves (resolve : Nat → String → Option Int) (t : Nat)
    (old3 : List String) (t0 : Nat) (p0 : String) (hres0 : resolve t0 p0 = none) :
    ∀ (l : List String) (acc : PBState × List PBEv),
      lookupEntry (l.foldl (stepPlayer resolve t old3) acc).1 t0 p0 =
        lookupEntry acc.1 t0 p0 := by
  intro l
  induction l with
  | nil => intro acc; rfl
  | cons x rest ih =>
    intro acc
    rw [List.foldl_cons, ih]
    exact stepPlayer_preserves_entry resolve t old3 acc.1 acc.2 x t0 p0 (Or.inl hres0)

lemma stepType_preserves (resolve : Nat → String → Option Int) (t0 : Nat) (p0 : String)
    (hres0 : resolve t0 p0 = none) (acc : PBState × List PBEv) (t : Nat) :
    lookupEntry (stepType resolve acc t).1 t0 p0 = lookupEntry acc.1 t0 p0 :=
  foldl_stepPlayer_preserves resolve t ((alookup t acc.1.top3ByType).getD []) t0 p0 hres0
    players acc

lemma foldl_stepType_preserves (resolve : Nat → String → Option Int) (t0 : Nat)
    (p0 : String) (hres0 : resolve t0 p0 = none) :
    ∀ (ts : List Nat) (acc : PBState × List PBEv),
      lookupEntry (ts.foldl (stepType resolve) acc).1 t0 p0 = lookupEntry acc.1 t0 p0 := by
  intro ts
  induction ts with
  | nil => intro acc; rfl
  | cons t rest ih =>
    intro acc
    rw [List.foldl_cons, ih]
    exact stepType_preserves resolve t0 p0 hres0 acc t

/-- Claim C9: if the resolver fails (`null`: source error, timeout, or a
payload yielding no numeric result) for a tracked (category, player) pair,
the tick skips that pair entirely — its per-player body is the identity —
the stored entry for the pair survives the whole tick unchanged, and no
announcement for that pair appears in the tick's trace. -/
theorem C9_resolver_failure_skips (resolve : Nat → String → Option Int) (st0 : PBState)
    (t : Nat) (p : String) (ht : t ∈ TRACK_TYPES) (hres : resolve t p = none) :
    (∀ old3 st evs, stepPlayer resolve t old3 (st, evs) p = (st, evs)) ∧
      lookupEntry (pbTick resolve st0).1 t p = lookupEntry st0 t p ∧
      ∀ ev ∈ (pbTick resolve st0).2, announces (typeLabel t) p ev = false := by
  refine ⟨fun old3 st evs => stepPlayer_skip old3 st evs hres,
    foldl_stepType_preserves resolve t p hres TRACK_TYPES (st0, []), ?_⟩
  intro ev hev
  cases hann : announces (typeLabel t) p ev with
  | false => rfl
  | true =>
    obtain ⟨t', ht', hlbl, hres'⟩ := pbTick_announces resolve st0 (typeLabel t) p ev hev hann
    have heq : t' = t := by
      have h1 : t = 1 ∨ t = 2 ∨ t = 3 := by simpa [TRACK_TYPES] using ht
      have h2 : t' = 1 ∨ t' = 2 ∨ t' = 3 := by simpa [TRACK_TYPES] using ht'
      rcases h1 with rfl | rfl | rfl <;> rcases h2 with rfl | rfl | rfl <;>
        first
          | rfl
          | exact absurd hlbl (by decide)
    rw [heq] at hres'
    exact absurd hres hres'

/-- A tick oracle that fails for every pair. -/
def resolveNone : Nat → String → Option Int := fun _ _ => none

theorem C9_resolver_failure_skips_witness :
    (2 ∈ TRACK_TYPES ∧ resolveNone 2 "JerryBox" = none) ∧
      ((∀ old3 st evs, stepPlayer resolveNone 2 old3 (st, evs) "JerryBox" = (st, evs)) ∧
        lookupEntry (pbTick resolveNone stImp).1 2 "JerryBox" =
          lookupEntry stImp 2 "JerryBox" ∧
        ∀ ev ∈ (pbTick resolveNone stImp).2, announces (typeLabel 2) "JerryBox" ev = false) :=
  ⟨⟨by decide, rfl⟩,
    C9_resolver_failure_skips resolveNone stImp 2 "JerryBox" (by decide) rfl⟩

/-- Claim C10: a stored prior entry that is not a finite strictly-positive
number (absent key, non-numeric value, zero, or negative) is treated as
absent: the next resolved time replaces it unconditionally and silently —
no save-within-step, placement, or improvement event — even when the new
time is numerically greater than the junk prior value. -/
theorem C10_junk_prior_replaced_silently (resolve : Nat → String → Option Int) (t : Nat)
    (old3 : List String) (st : PBState) (evs : List PBEv) (p : String) (latest : Int)
    (hres : resolve t p = some latest)
    (hjunk : lookupNum st t p = none ∨ ∃ v, lookupNum st t p = some v ∧ v ≤ 0) :
    stepPlayer resolve t old3 (st, evs) p = (setPB st t p latest, evs) := by
  rcases hjunk with h | ⟨v, hv, hle⟩
  · exact stepPlayer_fresh old3 st evs hres h
  · exact stepPlayer_junk old3 st evs hres hv hle

/-- A loaded state holding a negative (corrupt) stored value. -/
def stJunk : PBState :=
  { pbByType := [(1, [("JerryBox", some (-5))])], top3ByType := [] }

theorem C10_junk_prior_replaced_silently_witness :
    (resolveImp 1 "JerryBox" = some 580000 ∧
        (lookupNum stJunk 1 "JerryBox" = none ∨
          ∃ v, lookupNum stJunk 1 "JerryBox" = some v ∧ v ≤ 0) ∧
        (-5 : Int) < 580000) ∧
      stepPlayer resolveImp 1 ["tumblintim"] (stJunk, []) "JerryBox" =
        (setPB stJunk 1 "JerryBox" 580000, []) :=
  ⟨⟨rfl, Or.inr ⟨-5, rfl, by norm_num⟩, by norm_num⟩,
    C10_junk_prior_replaced_silently resolveImp 1 ["tumblintim"] stJunk [] "JerryBox"
      580000 rfl (Or.inr ⟨-5, rfl, by norm_num⟩)⟩

/-- Claim C6: on an accepted improvement (resolved time strictly below
the positive stored prior), the step's trace opens with a `save` of the
state in which the entry is already updated to the new time; everything
after that save is send events only (no further persistence), among them
the PB-improvement announcement.  Durability therefore precedes
announcement. -/
theorem C6_persist_before_announce (resolve : Nat → String → Option Int) (t : Nat)
    (old3 : List String) (st : PBState) (p : String) (latest prev : Int)
    (hres : resolve t p = some latest) (hnum : lookupNum st t p = some prev)
    (hpos : 0 < prev) (himp : latest < prev) :
    ∃ rest, (stepPlayer resolve t old3 (st, []) p).2 =
        PBEv.save (setPB st t p latest) :: rest ∧
      lookupNum (setPB st t p latest) t p = some latest ∧
      (∀ ev ∈ rest, ∀ s, ev ≠ PBEv.save s) ∧
      PBEv.sendPB (typeLabel t) p latest prev ∈ rest := by
  refine ⟨improveEvents old3 t p latest prev (setPB st t p latest), ?_,
    lookupNum_setPB_self st t p latest, ?_, ?_⟩
  · rw [stepPlayer_improve old3 st [] hres hnum hpos himp]
    rfl
  · rw [improveEvents_eq]
    intro ev hev s
    rcases List.mem_append.mp hev with h | h
    · by_cases hc : 1 ≤ placementOf (getTypeMap (setPB st t p latest) t) p ∧
          placementOf (getTypeMap (setPB st t p latest) t) p ≤ 3 ∧
          old3.get? (placementOf (getTypeMap (setPB st t p latest) t) p - 1).toNat ≠ some p
      · rw [if_pos hc] at h
        obtain rfl := List.mem_singleton.mp h
        simp
      · rw [if_neg hc] at h
        cases h
    · obtain rfl := List.mem_singleton.mp h
      simp
  · rw [improveEvents_eq]
    exact List.mem_append.mpr (Or.inr (by simp))

theorem C6_persist_before_announce_witness :
    (resolveImp 2 "JerryBox" = some 580000 ∧
        lookupNum stImp 2 "JerryBox" = some 600000 ∧ (0 : Int) < 600000 ∧
        (580000 : Int) < 600000) ∧
      ∃ rest, (stepPlayer resolveImp 2 ["tumblintim"] (stImp, []) "JerryBox").2 =
          PBEv.save (setPB stImp 2 "JerryBox" 580000) :: rest ∧
        lookupNum (setPB stImp 2 "JerryBox" 580000) 2 "JerryBox" = some 580000 ∧
        (∀ ev ∈ rest, ∀ s, ev ≠ PBEv.save s) ∧
        PBEv.sendPB (typeLabel 2) "JerryBox" 580000 600000 ∈ rest :=
  ⟨⟨rfl, rfl, by norm_num, by norm_num⟩,
    C6_persist_before_announce resolveImp 2 ["tumblintim"] stImp "JerryBox" 580000 600000
      rfl rfl (by norm_num) (by norm_num)⟩

/-- Claim C7: on an accepted improvement, the PB-improvement announcement
carrying the new and old time is always emitted, and a placement-change
announcement is emitted iff the newly computed placement (JS
`findIndex + 1` in the rows sorted ascending by time) is 1, 2 or 3 and
the occupant of that slot in the pre-update top-3 snapshot differs from
the improving player. -/
theorem C7_placement_announcement_iff (resolve : Nat → String → Option Int) (t : Nat)
    (old3 : List String) (st : PBState) (p : String) (latest prev : Int)
    (hres : resolve t p = some latest) (hnum : lookupNum st t p = some prev)
    (hpos : 0 < prev) (himp : latest < prev) :
    PBEv.sendPB (typeLabel t) p latest prev ∈ (stepPlayer resolve t old3 (st, []) p).2 ∧
      (PBEv.sendPlace (placementOf (getTypeMap (setPB st t p latest) t) p) p (typeLabel t) ∈
          (stepPlayer resolve t old3 (st, []) p).2 ↔
        1 ≤ placementOf (getTypeMap (setPB st t p latest) t) p ∧
          placementOf (getTypeMap (setPB st t p latest) t) p ≤ 3 ∧
          old3.get? (placementOf (getTypeMap (setPB st t p latest) t) p - 1).toNat ≠
            some p) := by
  rw [stepPlayer_improve old3 st [] hres hnum hpos himp]
  by_cases hc : 1 ≤ placementOf (getTypeMap (setPB st t p latest) t) p ∧
      placementOf (getTypeMap (setPB st t p latest) t) p ≤ 3 ∧
      old3.get? (placementOf (getTypeMap (setPB st t p latest) t) p - 1).toNat ≠ some p
  · rw [improveEvents_eq, if_pos hc]
    constructor
    · simp
    · constructor
      · intro _
        exact hc
      · intro _
        simp
  · rw [improveEvents_eq, if_neg hc]
    constructor
    · simp
    · constructor
      · intro hmem
        simp at hmem
      · intro hcon
        exact absurd hcon hc

theorem C7_placement_announcement_iff_witness :
    (resolveImp 2 "JerryBox" = some 580000 ∧
        lookupNum stImp 2 "JerryBox" = some 600000 ∧ (0 : Int) < 600000 ∧
        (580000 : Int) < 600000) ∧
      (PBEv.sendPB (typeLabel 2) "JerryBox" 580000 600000 ∈
          (stepPlayer resolveImp 2 ["tumblintim"] (stImp, []) "JerryBox").2 ∧
        (PBEv.sendPlace
            (placementOf (getTypeMap (setPB stImp 2 "JerryBox" 580000) 2) "JerryBox")
            "JerryBox" (typeLabel 2) ∈
            (stepPlayer resolveImp 2 ["tumblintim"] (stImp, []) "JerryBox").2 ↔
          1 ≤ placementOf (getTypeMap (setPB stImp 2 "JerryBox" 580000) 2) "JerryBox" ∧
            placementOf (getTypeMap (setPB stImp 2 "JerryBox" 580000) 2) "JerryBox" ≤ 3 ∧
            (["tumblintim"] : List String).get?
                (placementOf (getTypeMap (setPB stImp 2 "JerryBox" 580000) 2) "JerryBox" -
                  1).toNat ≠ some "JerryBox")) :=
  ⟨⟨rfl, rfl, by norm_num, by norm_num⟩,
    C7_placement_announcement_iff resolveImp 2 ["tumblintim"] stImp "JerryBox" 580000
      600000 rfl rfl (by norm_num) (by norm_num)⟩

/-- JS `String.prototype.padStart(n, "0")`. -/
def padZero (s : String) (n : Nat) : String :=
  if s.length < n then String.mk (List.replicate (n - s.length) '0') ++ s else s

/-- `formatTime` (lines 50–57).  JS `Math.floor(ms / 60000)` is floor
division and JS `%` keeps the dividend's sign, i.e. `Int.fdiv` and
`Int.tmod`. -/
def formatTime (ms : Int) : String :=
  toString (Int.fdiv ms 60000) ++ ":" ++
    padZero (toString (Int.fdiv (Int.tmod ms 60000) 1000)) 2 ++ "." ++
    padZero (toString (Int.tmod ms 1000)) 3

/-- `getOpponentNamesFromMatch` (lines 232–250). -/
def getOpponentNamesFromMatch (m : MatchRecord) (playerUuid : String) : String :=
  let opps :=
    ((m.players.filter (fun pl =>
        match pl.uuid with
        | some u => decide (u ≠ "") && decide (u ≠ playerUuid)
        | none => false)).filterMap (fun pl => pl.nickname)).filter
      (fun name => decide (0 < name.length) && decide (name ≠ "[Ranked Bot]"))
  if opps.isEmpty then
    match (m.players.filterMap (fun pl => pl.nickname)).find?
        (fun n => n == "[Ranked Bot]") with
    | some _ => "[Ranked Bot]"
    | none => "Unknown"
  else String.intercalate " & " opps

/-- `getEloForPlayerFromMatch` (lines 252–266): prefer a numeric
`eloRate` from `changes[]`, fall back to the participant entry. -/
def getEloForPlayerFromMatch (m : MatchRecord) (playerUuid : String) : Option Int :=
  match m.changes.find? (fun c => c.uuid == some playerUuid && c.eloRate.isSome) with
  | some c => c.eloRate
  | none =>
    match m.players.find? (fun pl => pl.uuid == some playerUuid) with
    | some pl => pl.eloRate
    | none => none

/-- `buildRankedResultMessage` (lines 268–305). -/
def buildRankedResultMessage (trackedName trackedUuid : String) (m : MatchRecord) :
    String :=
  let typeName := typeLabel (m.mtype.getD 0)
  let winnerUuid : Option String := if truthyStr m.resultUuid then m.resultUuid else none
  let oppName := getOpponentNamesFromMatch m trackedUuid
  let eloText :=
    match getEloForPlayerFromMatch m trackedUuid with
    | some e => " • **ELO:** " ++ toString e
    | none => ""
  if m.forfeited || m.resultTime.isNone then
    if winnerUuid = some trackedUuid then
      "✅ **" ++ trackedName ++ "** beat **" ++ oppName ++
        "** — no completion time (forfeit/DNF). (" ++ typeName ++ ")" ++ eloText
    else if winnerUuid.isSome then
      "❌ **" ++ trackedName ++ "** lost to **" ++ oppName ++
        "** — no completion time (forfeit/DNF). (" ++ typeName ++ ")" ++ eloText
    else
      "⚠️ **" ++ trackedName ++ "** finished a **" ++ typeName ++
        "** match — no completion time (DNF/forfeit)." ++ eloText
  else
    if winnerUuid = some trackedUuid then
      "✅ **" ++ trackedName ++ "** beat **" ++ oppName ++ "** in **" ++
        formatTime (m.resultTime.getD 0) ++ "** (" ++ typeName ++ ")" ++ eloText
    else if winnerUuid.isSome then
      "❌ **" ++ trackedName ++ "** lost to **" ++ oppName ++ "** in **" ++
        formatTime (m.resultTime.getD 0) ++ "** (" ++ typeName ++ ")" ++ eloText
    else
      "⚠️ **" ++ trackedName ++ "** finished in **" ++ formatTime (m.resultTime.getD 0) ++
        "** (" ++ typeName ++ ")" ++ eloText

/-- The generic fallback announcement used when the player's uuid is
unknown (lines 434–447). -/
def genericResultMessage (p : String) (m : MatchRecord) : String :=
  if m.forfeited || m.resultTime.isNone then
    "⚠️ **" ++ p ++ "** finished a **" ++ typeLabel (m.mtype.getD 0) ++
      "** match — no completion time (DNF/forfeit)."
  else
    "⚠️ **" ++ p ++ "** finished in **" ++ formatTime (m.resultTime.getD 0) ++ "** (" ++
      typeLabel (m.mtype.getD 0) ++ ")"

/-- The `lastMatchId` slice of the persisted state: a stored value is
`some s` for a string value, `none` when absent or non-string (the code
only consumes string watermarks: `typeof prevIdStr !== "string"`). -/
structure WState where
  lastMatchId : List (String × Option String)
deriving Repr, DecidableEq

/-- Observable actions of one match-watcher tick, in program order. -/
inductive WEv
  | save (s : WState)
  | send (msg : String)
deriving Repr, DecidableEq

/-- `state.lastMatchId[p]` when it is a string. -/
def lookupWM (st : WState) (p : String) : Option String :=
  (alookup p st.lastMatchId).getD none

/-- `state.lastMatchId[p] = idStr`. -/
def setWM (st : WState) (p : String) (s : String) : WState :=
  ⟨aupsert p (some s) st.lastMatchId⟩

/-- Number of `channel.send` calls recorded in a watcher trace. -/
def countSends (evs : List WEv) : Nat :=
  evs.countP (fun ev => match ev with | WEv.send _ => true | _ => false)

/-- The per-player body of the finished-match notifier (lines 411–457).
`fetchLatest p` is this tick's oracle for
`await fetchLatestMatch(p).catch(() => null)`; `uuids` is the global
`uuidByName` map (`none` when resolution failed at startup); the JS
`uuidByName[p] || null` truthiness collapse is the inner `if`. -/
def watchPlayer (fetchLatest : String → Option MatchRecord)
    (uuids : String → Option String) (acc : WState × List WEv) (p : String) :
    WState × List WEv :=
  match fetchLatest p with
  | none => acc
  | some m =>
    match m.id with
    | none => acc
    | some idn =>
      match lookupWM acc.1 p with
      | none => (setWM acc.1 p (toString idn), acc.2)
      | some prevId =>
        if toString idn ≠ prevId then
          match (if truthyStr (uuids p) then uuids p else none) with
          | none =>
            (setWM acc.1 p (toString idn),
              acc.2 ++ [WEv.save (setWM acc.1 p (toString idn)),
                WEv.send (genericResultMessage p m)])
          | some tu =>
            (setWM acc.1 p (toString idn),
              acc.2 ++ [WEv.save (setWM acc.1 p (toString idn)),
                WEv.send (buildRankedResultMessage p tu m)])
        else acc

/-- One full tick of the finished-match notifier (lines 407–461); the
trailing `save` is line 460. -/
def watchTick (fetchLatest : String → Option MatchRecord)
    (uuids : String → Option String) (st0 : WState) : WState × List WEv :=
  let out := players.foldl (watchPlayer fetchLatest uuids) (st0, [])
  (out.1, out.2 ++ [WEv.save out.1])

lemma lookupWM_setWM_self (st : WState) (p s : String) :
    lookupWM (setWM st p s) p = some s := by
  simp [lookupWM, setWM, alookup_aupsert_self]

lemma countSends_announce (evs : List WEv) (s : WState) (msg : String) :
    countSends (evs ++ [WEv.save s, WEv.send msg]) = countSends evs + 1 := by
  simp [countSends, List.countP_append, List.countP_cons]

/-- Claim C4: watermark advance is idempotent.  If a player holds a
stored watermark `w` and the watcher observes a newest match whose id
renders to a different string, the observation produces exactly one
announcement and advances the watermark to that id; observing the same
newest match again (the id now equals the stored watermark) is a complete
no-op: no announcement, no save, watermark unchanged.  In total the
identifier is announced exactly once. -/
theorem C4_watermark_idempotent (fetchLatest : String → Option MatchRecord)
    (uuids : String → Option String) (st0 : WState) (evs0 : List WEv) (p : String)
    (m : MatchRecord) (idn : Nat) (w : String)
    (hm : fetchLatest p = some m) (hid : m.id = some idn)
    (hw : lookupWM st0 p = some w) (hne : toString idn ≠ w) :
    countSends (watchPlayer fetchLatest uuids (st0, evs0) p).2 = countSends evs0 + 1 ∧
      lookupWM (watchPlayer fetchLatest uuids (st0, evs0) p).1 p = some (toString idn) ∧
      watchPlayer fetchLatest uuids (watchPlayer fetchLatest uuids (st0, evs0) p) p =
        watchPlayer fetchLatest uuids (st0, evs0) p := by
  have hnoop : ∀ st1 evs1, lookupWM st1 p = some (toString idn) →
      watchPlayer fetchLatest uuids (st1, evs1) p = (st1, evs1) := by
    intro st1 evs1 hlook
    simp only [watchPlayer, hm, hid, hlook]
    rw [if_neg (fun hcon => hcon rfl)]
  cases htu : (if truthyStr (uuids p) then uuids p else none) with
  | none =>
    have hstep : watchPlayer fetchLatest uuids (st0, evs0) p =
        (setWM st0 p (toString idn),
          evs0 ++ [WEv.save (setWM st0 p (toString idn)),
            WEv.send (genericResultMessage p m)]) := by
      simp only [watchPlayer, hm, hid, hw]
      rw [if_pos hne, htu]
    rw [hstep]
    exact ⟨countSends_announce evs0 _ _, lookupWM_setWM_self st0 p (toString idn),
      hnoop _ _ (lookupWM_setWM_self st0 p (toString idn))⟩
  | some tu =>
    have hstep : watchPlayer fetchLatest uuids (st0, evs0) p =
        (setWM st0 p (toString idn),
          evs0 ++ [WEv.save (setWM st0 p (toString idn)),
            WEv.send (buildRankedResultMessage p tu m)]) := by
      simp only [watchPlayer, hm, hid, hw]
      rw [if_pos hne, htu]
    rw [hstep]
    exact ⟨countSends_announce evs0 _ _, lookupWM_setWM_self st0 p (toString idn),
      hnoop _ _ (lookupWM_setWM_self st0 p (toString idn))⟩

/-- A newest-match fixture with id 777. -/
def latestMatchExample : MatchRecord :=
  { id := some 777, resultTime := some 650000, resultUuid := some "uuid-a",
    forfeited := false, mtype := some 2,
    players := [{ uuid := some "uuid-a", nickname := some "JerryBox", eloRate := some 1500 },
                { uuid := some "uuid-b", nickname := some "B", eloRate := some 1400 }],
    changes := [{ uuid := some "uuid-a", eloRate := some 1500 }] }

/-- A fetch oracle that always serves `latestMatchExample`. -/
def fetchLatestExample : String → Option MatchRecord := fun _ => some latestMatchExample

/-- A uuid map resolving only JerryBox. -/
def uuidsExample : String → Option String :=
  fun p => if p = "JerryBox" then some "uuid-a" else none

/-- A watcher state whose watermark for JerryBox differs from 777. -/
def wstExample : WState := ⟨[("JerryBox", some "776")]⟩

theorem C4_watermark_idempotent_witness :
    (fetchLatestExample "JerryBox" = some latestMatchExample ∧
        latestMatchExample.id = some 777 ∧
        lookupWM wstExample "JerryBox" = some "776" ∧ toString 777 ≠ "776") ∧
      (countSends (watchPlayer fetchLatestExample uuidsExample (wstExample, []) "JerryBox").2 =
          countSends [] + 1 ∧
        lookupWM (watchPlayer fetchLatestExample uuidsExample (wstExample, []) "JerryBox").1
            "JerryBox" = some (toString 777) ∧
        watchPlayer fetchLatestExample uuidsExample
            (watchPlayer fetchLatestExample uuidsExample (wstExample, []) "JerryBox")
            "JerryBox" =
          watchPlayer fetchLatestExample uuidsExample (wstExample, []) "JerryBox") :=
  ⟨⟨rfl, rfl, rfl, by decide⟩,
    C4_watermark_idempotent fetchLatestExample uuidsExample wstExample [] "JerryBox"
      latestMatchExample 777 "776" rfl rfl rfl (by decide)⟩

/-- Claim C5: cold start is silent.  First conjunct: a first-ever
resolved best (no stored entry for the pair) is stored with no events —
no improvement or placement announcement.  Second conjunct: a first-ever
observed newest-match id (no stored string watermark) is stored as the
watermark with no events — no result announcement. -/
theorem C5_cold_start_silent (resolve : Nat → String → Option Int) (t : Nat)
    (old3 : List String) (st : PBState) (evs : List PBEv) (p : String) (latest : Int)
    (hres : resolve t p = some latest) (hent : lookupEntry st t p = none)
    (fetchLatest : String → Option MatchRecord) (uuids : String → Option String)
    (wst : WState) (wevs : List WEv) (q : String) (m : MatchRecord) (idn : Nat)
    (hm : fetchLatest q = some m) (hid : m.id = some idn)
    (hwm : lookupWM wst q = none) :
    stepPlayer resolve t old3 (st, evs) p = (setPB st t p latest, evs) ∧
      watchPlayer fetchLatest uuids (wst, wevs) q = (setWM wst q (toString idn), wevs) := by
  constructor
  · exact stepPlayer_fresh old3 st evs hres (by unfold lookupNum; rw [hent]; rfl)
  · simp only [watchPlayer, hm, hid, hwm]

/-- An empty loaded PB state. -/
def stEmpty : PBState := { pbByType := [], top3ByType := [] }

/-- An empty watcher state. -/
def wstEmpty : WState := ⟨[]⟩

theorem C5_cold_start_silent_witness :
    (resolveImp 2 "JerryBox" = some 580000 ∧ lookupEntry stEmpty 2 "JerryBox" = none ∧
        fetchLatestExample "jeefq" = some latestMatchExample ∧
        latestMatchExample.id = some 777 ∧ lookupWM wstEmpty "jeefq" = none) ∧
      (stepPlayer resolveImp 2 [] (stEmpty, []) "JerryBox" =
          (setPB stEmpty 2 "JerryBox" 580000, []) ∧
        watchPlayer fetchLatestExample uuidsExample (wstEmpty, []) "jeefq" =
          (setWM wstEmpty "jeefq" (toString 777), [])) :=
  ⟨⟨rfl, rfl, rfl, rfl, rfl⟩,
    C5_cold_start_silent resolveImp 2 [] stEmpty [] "JerryBox" 580000 rfl rfl
      fetchLatestExample uuidsExample wstEmpty [] "jeefq" latestMatchExample 777 rfl rfl rfl⟩

lemma mem_insertAsc {e x : String × Int} : ∀ {l : List (String × Int)},
    x ∈ insertAsc e l ↔ x = e ∨ x ∈ l := by
  intro l
  induction l with
  | nil => simp [insertAsc]
  | cons f rest ih =>
    by_cases hle : f.2 ≤ e.2
    · rw [insertAsc, if_pos hle]
      simp only [List.mem_cons, ih]
      tauto
    · rw [insertAsc, if_neg hle]
      simp only [List.mem_cons]

lemma insertAsc_sorted (e : String × Int) : ∀ (l : List (String × Int)),
    List.Pairwise (fun a b => a.2 ≤ b.2) l →
      List.Pairwise (fun a b => a.2 ≤ b.2) (insertAsc e l) := by
  intro l
  induction l with
  | nil => intro _; simp [insertAsc]
  | cons f rest ih =>
    intro h
    rw [List.pairwise_cons] at h
    by_cases hle : f.2 ≤ e.2
    · rw [insertAsc, if_pos hle]
      rw [List.pairwise_cons]
      refine ⟨?_, ih h.2⟩
      intro x hx
      rcases mem_insertAsc.mp hx with rfl | hx2
      · exact hle
      · exact h.1 x hx2
    · rw [insertAsc, if_neg hle]
      rw [List.pairwise_cons]
      refine ⟨?_, List.pairwise_cons.mpr h⟩
      intro x hx
      rcases List.mem_cons.mp hx with rfl | hx2
      · omega
      · exact le_trans (by omega) (h.1 x hx2)

/-- The rows `placementOf` indexes into are sorted ascending by time, so
the JS `findIndex + 1` there is the 1-based rank by ascending time. -/
lemma rankedRows_sorted (tm : List (String × JSNum)) :
    List.Pairwise (fun a b => a.2 ≤ b.2) (rankedRows tm) := by
  have haux : ∀ (l : List (String × Int)) (acc : List (String × Int)),
      List.Pairwise (fun a b => a.2 ≤ b.2) acc →
        List.Pairwise (fun a b => a.2 ≤ b.2)
          (l.foldl (fun acc e => insertAsc e acc) acc) := by
    intro l
    induction l with
    | nil => intro acc h; exact h
    | cons e rest ih => intro acc h; exact ih _ (insertAsc_sorted e acc h)
  exact haux _ [] (by simp)
